import Mathlib

/-!
Shallow embedding of `src/server/server.py` (the "nothing-to-declare" relay
server): the message routing of the connection hub (`receiver` coroutine), the
redirect table (`follow_redirects`), client-id assignment (`websocketServer`),
and the gimp compositing worker (`continue_gimp_session`).

Conventions of the embedding:
* Python strings are `List Char` (`Str`); `str.split(sep)` is `splitOnChar`.
* Python dicts keyed by client id (`client_put_queues`, `redirects`) are
  association lists with first-match lookup (`alookup`); dict keys are unique
  in Python, and first-match lookup agrees with dict lookup on such lists.
* The outbound asyncio queue of a client is the `List Str` of frames enqueued to it,
  in order; `put` is appending.
* `follow_redirects` is a `while` loop that diverges on a cyclic table; it is
  embedded as the fuel-indexed `followFuel`, where `none` means the loop has
  not finished within the given fuel.
* A Python `assert` failure (fatal to the session) is an explicit error
  outcome identifying which assert fired.
-/

set_option autoImplicit false

namespace Server

/-- Python strings, embedded as lists of characters. -/
abbrev Str := List Char

/-- First-match association-list lookup: the embedding of Python dict lookup
(`x in d`, `d[x]`) for dicts whose keys are unique. -/
def alookup {α : Type} : List (Nat × α) → Nat → Option α
  | [], _ => none
  | (k, v) :: ps, x => if k = x then some v else alookup ps x

/-- `client_put_queues`: registered client id ↦ its outbound queue of frames
(a queue is the list of frames enqueued to it, in order). -/
abbrev Registry := List (Nat × List Str)

/-- `redirects`: departed client id ↦ its recorded successor id. -/
abbrev RTable := List (Nat × Nat)

/-- `dest in client_put_queues` (server.py line 278/315/342). -/
def isRegistered (reg : Registry) (d : Nat) : Bool :=
  (alookup reg d).isSome

/-- `client_put_queues[dest](frame)` once `dest` is known to be present:
append `frame` to the queue of every entry keyed `dest` (on a unique-key
list, exactly the one queue). Identity when `dest` is absent. -/
def enqueue (reg : Registry) (d : Nat) (frame : Str) : Registry :=
  reg.map (fun p => if p.1 = d then (p.1, p.2 ++ [frame]) else p)

/-- server.py lines 75-79:

```
def follow_redirects(x):
  while x in redirects:
    x = redirects[x]
  return x
```

embedded with explicit fuel: `some r` when the while loop returns `r` within
`fuel` iterations, `none` when it is still running. -/
def followFuel (t : RTable) : Nat → Nat → Option Nat
  | 0, x =>
    match alookup t x with
    | none => some x
    | some _ => none
  | fuel + 1, x =>
    match alookup t x with
    | none => some x
    | some y => followFuel t fuel y

/-- `follow_redirects` with the canonical fuel `t.length`: a terminating run
of the loop visits pairwise-distinct keys of `t`, so it takes at most
`t.length` steps, and `none` here means the Python loop never returns. -/
def follow_redirects (t : RTable) (x : Nat) : Option Nat :=
  followFuel t t.length x

/-- One iteration of the `follow_redirects` loop as a total step function:
move to the mapped value when `x` is a key, stay put otherwise. -/
def gstep (t : RTable) (x : Nat) : Nat :=
  (alookup t x).getD x

/-- The redirect table contains a cycle: some chain of `n > 0` loop steps
through keys of the table returns to its start.  On such a table the Python
`while` loop started inside the cycle never terminates. -/
def HasCycle (t : RTable) : Prop :=
  ∃ x n, 0 < n ∧ (∀ m < n, (alookup t ((gstep t)^[m] x)).isSome) ∧
    (gstep t)^[n] x = x

/-- Python `s.split(sep)` for a one-character separator: keeps empty pieces,
and splitting the empty string yields `[""]`. -/
def splitOnChar (sep : Char) : Str → List Str
  | [] => [[]]
  | c :: cs =>
    if c = sep then [] :: splitOnChar sep cs
    else
      match splitOnChar sep cs with
      | [] => [[c]]
      | p :: ps => (c :: p) :: ps

/-- Python `sep.join(parts)` for a one-character separator. -/
def joinSep (sep : Char) : List Str → Str
  | [] => []
  | [p] => p
  | p :: q :: ps => p ++ sep :: joinSep sep (q :: ps)

/-- Python `s.isnumeric()` restricted to ASCII digit strings: nonempty and
all characters decimal digits (`"".isnumeric()` is `False`). -/
def isNumericStr (s : Str) : Bool :=
  !s.isEmpty && s.all (fun c => c.isDigit)

/-- Python `int(s)` on a digit string: left fold accumulating base-10 value. -/
def strToNat (s : Str) : Nat :=
  s.foldl (fun n c => n * 10 + (c.toNat - 48)) 0

/-- Python `int(x)` applied after the signed-offset check of the server
`(x[1:] if x.startswith("-") else x).isnumeric()` (server.py line 308):
`some` of the signed value when the check passes, `none` when the `assert`
fires. -/
def parseSignedInt (s : Str) : Option Int :=
  match s with
  | '-' :: rest => if isNumericStr rest then some (-(strToNat rest : Int)) else none
  | _ => if isNumericStr s then some (strToNat s : Int) else none

/-- Canonical decimal digits of a natural number, most significant first,
matching Python `str(n)` for `n ≥ 0`. -/
def natChars (n : Nat) : Str :=
  if _h : n < 10 then [Nat.digitChar n]
  else natChars (n / 10) ++ [Nat.digitChar (n % 10)]
decreasing_by exact Nat.div_lt_self (by omega) (by omega)

/-- Python `str(n)` for an `int`: a `-` sign followed by digits when
negative, plain digits otherwise. -/
def intChars (n : Int) : Str :=
  if n < 0 then '-' :: natChars (-n).toNat else natChars n.toNat

/-- Canonical text of an offsets field: `x1,y1;x2,y2;...` (empty for no
offsets), as produced by a client following the wire grammar. -/
def encodeOffsets (l : List (Int × Int)) : Str :=
  joinSep ';' (l.map (fun p => intChars p.1 ++ ',' :: intChars p.2))

/-- Canonical text of a destination-id list: comma-joined decimal ids. -/
def encodeDests (ds : List Nat) : Str :=
  joinSep ',' (ds.map natChars)

/-- Sequential evaluation of an option-valued map over a list, `none` as
soon as one element fails: the embedding of a Python list comprehension
whose body can raise or diverge. -/
def mapOpt {α β : Type} (f : α → Option β) : List α → Option (List β)
  | [] => some []
  | a :: as =>
    match f a, mapOpt f as with
    | some b, some bs => some (b :: bs)
    | _, _ => none

/-- server.py lines 301-309: parse and validate the `<offsets>` field of a
STAMP frame.  `some l` is the list of signed offset pairs carried into the
`StampJob`; `none` means one of the offset `assert`s fired (fatal). -/
def parseOffsets (s : Str) : Option (List (Int × Int)) :=
  if s = [] then some []
  else
    mapOpt
      (fun off =>
        match splitOnChar ',' off with
        | [a, b] => do
          let x ← parseSignedInt a
          let y ← parseSignedInt b
          pure (x, y)
        | _ => none)
      (splitOnChar ';' s)

/-- The frame `f"MSG|{msg}"` pushed to a destination queue. -/
def msgFrame (payload : Str) : Str :=
  'M' :: 'S' :: 'G' :: '|' :: payload

/-- Deliver a frame to each resolved destination in order
(server.py lines 279-280). -/
def deliverFold (reg : Registry) (rdests : List Nat) (frame : Str) : Registry :=
  rdests.foldl (fun r d => enqueue r d frame) reg

/-- Broadcast `MSG|payload` to every registered client other than the sender
(server.py lines 263-268). -/
def broadcastExceptSelf (reg : Registry) (cid : Nat) (payload : Str) : Registry :=
  reg.map (fun p => if p.1 = cid then p else (p.1, p.2 ++ [msgFrame payload]))

/-- Which `assert` of the MSG branch fired (each corresponds to one assert
message in server.py lines 273-278). -/
inductive MsgErr : Type
  | destNotNumeric
  | selfSend
  | invalidDest
deriving DecidableEq

/-- Result of the receiver coroutine processing one MSG frame:
deliveries performed, an `assert` fired (fatal to the session), or
`follow_redirects` never returned. -/
inductive MsgOutcome : Type
  | delivered (reg : Registry)
  | fatal (err : MsgErr)
  | hang
deriving DecidableEq

/-- server.py lines 255-280: the `MSG|<dest>|<payload>` branch of the receiver,
given the already-split `<dest>` and `<payload>` fields of the frame.
Faithful to the order of the code: broadcast marker test, per-token `isnumeric`
asserts, `int` conversion, self-send assert, redirect resolution,
per-resolved-id registration asserts, then delivery. -/
def handleMsg (cid : Nat) (reg : Registry) (rt : RTable)
    (destField payload : Str) : MsgOutcome :=
  if destField = ['A'] then
    .delivered (broadcastExceptSelf reg cid payload)
  else
    let toks := splitOnChar ',' destField
    if ¬ toks.all isNumericStr then .fatal .destNotNumeric
    else
      let dests := toks.map strToNat
      if cid ∈ dests then .fatal .selfSend
      else
        match mapOpt (follow_redirects rt) dests with
        | none => .hang
        | some rdests =>
          if ¬ rdests.all (isRegistered reg) then .fatal .invalidDest
          else .delivered (deliverFold reg rdests (msgFrame payload))

/-- The `{"icon":..., "offsets":..., "receivers":...}` dict put on
`gimp_queue` (server.py line 317). -/
structure StampJob : Type where
  icon : Str
  offsets : List (Int × Int)
  receivers : List Nat
deriving DecidableEq

/-- server.py lines 112-117: `gimp_validate` after the gimp session is set
up, with `icons` the key set of `foreground_imgs_paths_by_icon`.  The `None`
shutdown sentinel is always valid; a job is valid iff its icon is configured. -/
def gimp_validate (icons : List Str) : Option StampJob → Bool
  | none => true
  | some j => icons.contains j.icon

/-- Which `assert` of the STAMP branch fired (each corresponds to one assert
message in server.py lines 291-318). -/
inductive StampErr : Type
  | gimpDisabled
  | invalidOffset
  | destNotNumeric
  | invalidDest
  | failedValidation
deriving DecidableEq

/-- Result of the receiver coroutine processing one STAMP frame. -/
inductive StampOutcome : Type
  | enqueued (job : StampJob)
  | fatal (err : StampErr)
  | hang
deriving DecidableEq

/-- server.py lines 290-319: the `STAMP|<icon>|<offsets>|<dests>`
branch of the receiver, given the already-split fields.  Faithful to the order of the code:
gimp-enabled assert, offset parsing/validation, per-token `isnumeric`
asserts, redirect resolution, per-resolved-id registration asserts, then the
`gimp_validate` assert, then enqueue of the job (icon, parsed offsets,
resolved receivers). -/
def handleStamp (gimpEnabled : Bool) (icons : List Str) (reg : Registry)
    (rt : RTable) (iconField offsetsField destsField : Str) : StampOutcome :=
  if ¬ gimpEnabled then .fatal .gimpDisabled
  else
    match parseOffsets offsetsField with
    | none => .fatal .invalidOffset
    | some offs =>
      let toks := splitOnChar ',' destsField
      if ¬ toks.all isNumericStr then .fatal .destNotNumeric
      else
        match mapOpt (follow_redirects rt) (toks.map strToNat) with
        | none => .hang
        | some rdests =>
          if ¬ rdests.all (isRegistered reg) then .fatal .invalidDest
          else if ¬ gimp_validate icons (some ⟨iconField, offs, rdests⟩) then
            .fatal .failedValidation
          else .enqueued ⟨iconField, offs, rdests⟩

/-- The frame `f"STAMP|{output_img_filename}"` (server.py line 203).  The
filename is a fresh uuid plus extension; the embedding identifies each
generated output by the running output count `k` of the worker. -/
def stampFrame (k : Nat) : Str :=
  'S' :: 'T' :: 'A' :: 'M' :: 'P' :: '|' :: natChars k

/-- State of the compositing worker thread: the client registry it delivers
into, how many output images it has generated, and whether the thread has
died from an uncaught exception. -/
structure WorkerState : Type where
  reg : Registry
  outputs : Nat
  crashed : Bool
deriving DecidableEq

/-- server.py lines 201-203:

```
for dest in receivers:
  client_put_queues[dest](f"STAMP|{output_img_filename}")
```

Each lookup `client_put_queues[dest]` raises `KeyError` when `dest` is not
registered; the pair returned is the registry after the deliveries that did
happen, and whether the loop raised (deliveries before the raising lookup
persist, later receivers get nothing). -/
def deliverSeq (frame : Str) : Registry → List Nat → Registry × Bool
  | reg, [] => (reg, false)
  | reg, d :: ds =>
    if isRegistered reg d then deliverSeq frame (enqueue reg d frame) ds
    else (reg, true)

/-- server.py lines 170-207 (`continue_gimp_session`): the worker loop over
the dequeued items of `gimp_queue` (`none` is the shutdown sentinel).
Per item: `gimp_validate` failure ⇒ `continue` (silent drop); sentinel ⇒
break; otherwise one output image is generated and `STAMP|<filename>` is
delivered to each receiver in order — an unregistered receiver raises
`KeyError`, which escapes the loop (the `finally` teardown runs) and kills
the thread, leaving the remaining queue unprocessed. -/
def runWorker (icons : List Str) (s : WorkerState) :
    List (Option StampJob) → WorkerState
  | [] => s
  | none :: _ => s
  | some j :: rest =>
    if ¬ gimp_validate icons (some j) then runWorker icons s rest
    else
      let out := s.outputs + 1
      let res := deliverSeq (stampFrame out) s.reg j.receivers
      if res.2 then { reg := res.1, outputs := out, crashed := true }
      else runWorker icons { reg := res.1, outputs := out, crashed := s.crashed } rest

/-- One hub event observed by the id allocator: a client connects
(server.py lines 230-231) or a client departs (departure never touches
`next_client_id`). -/
inductive HubEvent : Type
  | join
  | leave (id : Nat)

/-- The id-assignment state machine: `next_client_id` starts at `n`; each
join assigns the current counter and increments it; leaves change nothing.
Returns the final counter and the assigned ids in order. -/
def runAssign : Nat → List HubEvent → Nat × List Nat
  | n, [] => (n, [])
  | n, .join :: evs =>
    let r := runAssign (n + 1) evs
    (r.1, n :: r.2)
  | n, .leave _ :: evs => runAssign n evs

/-- The ids assigned over a process lifetime (counter starts at 0,
server.py line 72). -/
def assignedIds (evs : List HubEvent) : List Nat :=
  (runAssign 0 evs).2

/-- Number of join events in a hub-event sequence. -/
def countJoins : List HubEvent → Nat
  | [] => 0
  | .join :: evs => countJoins evs + 1
  | .leave _ :: evs => countJoins evs

/-! ## Lemmas about redirect resolution -/

theorem followFuel_of_lookup_none {t : RTable} {x : Nat} (h : alookup t x = none)
    (n : Nat) : followFuel t n x = some x := by
  cases n <;> simp [followFuel, h]

theorem followFuel_lookup_none {t : RTable} :
    ∀ {n x r : Nat}, followFuel t n x = some r → alookup t r = none := by
  intro n
  induction n with
  | zero =>
    intro x r h
    unfold followFuel at h
    rcases hl : alookup t x with _ | y <;> rw [hl] at h <;> simp_all
  | succ n ih =>
    intro x r h
    unfold followFuel at h
    rcases hl : alookup t x with _ | y <;> rw [hl] at h
    · simp_all
    · exact ih h

theorem alookup_isSome_mem_keys {α : Type} {t : List (Nat × α)} {z : Nat}
    (h : (alookup t z).isSome) : z ∈ t.map Prod.fst := by
  induction t with
  | nil => simp [alookup] at h
  | cons p ps ih =>
    by_cases hk : p.1 = z
    · simp [hk]
    · simp only [alookup, hk, if_false] at h
      · simp [ih h]

theorem followFuel_of_iterate_none {t : RTable} :
    ∀ n x, (∃ k ≤ n, alookup t ((gstep t)^[k] x) = none) →
      ∃ r, followFuel t n x = some r := by
  intro n
  induction n with
  | zero =>
    intro x ⟨k, hk, hnone⟩
    have : k = 0 := Nat.le_zero.mp hk
    subst this
    exact ⟨x, followFuel_of_lookup_none (by simpa using hnone) 0⟩
  | succ n ih =>
    intro x ⟨k, hk, hnone⟩
    rcases hl : alookup t x with _ | y
    · exact ⟨x, followFuel_of_lookup_none hl (n + 1)⟩
    · rcases k with _ | k
      · simp [hl] at hnone
      · have hstep : gstep t x = y := by simp [gstep, hl]
        have : (gstep t)^[k] y = (gstep t)^[k + 1] x := by
          rw [Function.iterate_succ_apply, hstep]
        obtain ⟨r, hr⟩ := ih y ⟨k, Nat.le_of_succ_le_succ hk, by rw [this]; exact hnone⟩
        exact ⟨r, by simpa [followFuel, hl] using hr⟩

theorem follow_redirects_total_of_noCycle {t : RTable} (hnc : ¬ HasCycle t)
    (x : Nat) : ∃ r, follow_redirects t x = some r ∧ alookup t r = none := by
  by_cases hterm : ∃ k ≤ t.length, alookup t ((gstep t)^[k] x) = none
  · obtain ⟨r, hr⟩ := followFuel_of_iterate_none t.length x hterm
    exact ⟨r, hr, followFuel_lookup_none hr⟩
  · exfalso
    push_neg at hterm
    have hkey : ∀ k ≤ t.length, (alookup t ((gstep t)^[k] x)).isSome := by
      intro k hk
      rcases hl : alookup t ((gstep t)^[k] x) with _ | y
      · exact absurd hl (hterm k hk)
      · simp
    -- pigeonhole: the first `t.length + 1` iterates all lie in the key set
    have hcard : ((t.map Prod.fst).toFinset).card < (Finset.univ : Finset (Fin (t.length + 1))).card := by
      calc ((t.map Prod.fst).toFinset).card ≤ (t.map Prod.fst).length :=
            List.toFinset_card_le _
        _ = t.length := List.length_map _ _
        _ < t.length + 1 := Nat.lt_succ_self _
        _ = (Finset.univ : Finset (Fin (t.length + 1))).card := by simp
    have hmaps : ∀ i : Fin (t.length + 1), i ∈ (Finset.univ : Finset (Fin (t.length + 1))) →
        (gstep t)^[(i : Nat)] x ∈ (t.map Prod.fst).toFinset := by
      intro i _
      rw [List.mem_toFinset]
      exact alookup_isSome_mem_keys (hkey i (Nat.le_of_lt_succ i.isLt))
    obtain ⟨i, _, j, _, hij, heq⟩ :=
      Finset.exists_ne_map_eq_of_card_lt_of_maps_to hcard hmaps
    -- orient the duplicate pair so that i < j
    rcases Nat.lt_or_ge (i : Nat) (j : Nat) with hlt | hge
    case _ =>
      apply hnc
      refine ⟨(gstep t)^[(i : Nat)] x, (j : Nat) - (i : Nat), by omega, ?_, ?_⟩
      · intro m hm
        rw [← Function.iterate_add_apply]
        exact hkey (m + i) (by omega)
      · rw [← Function.iterate_add_apply]
        have : (j : Nat) - (i : Nat) + (i : Nat) = (j : Nat) := by omega
        rw [this, heq]
    case _ =>
      have hlt : (j : Nat) < (i : Nat) := by
        rcases Nat.lt_or_ge (j : Nat) (i : Nat) with h | h
        · exact h
        · exact absurd (Fin.ext (by omega)) hij
      apply hnc
      refine ⟨(gstep t)^[(j : Nat)] x, (i : Nat) - (j : Nat), by omega, ?_, ?_⟩
      · intro m hm
        rw [← Function.iterate_add_apply]
        exact hkey (m + j) (by omega)
      · rw [← Function.iterate_add_apply]
        have : (i : Nat) - (j : Nat) + (j : Nat) = (i : Nat) := by omega
        rw [this, ← heq]

/-! ## Lemmas about digits, `natChars` and `strToNat` -/

theorem digitChar_isDigit {d : Nat} (h : d < 10) :
    (Nat.digitChar d).isDigit = true := by
  interval_cases d <;> decide

theorem digitChar_toNat {d : Nat} (h : d < 10) :
    (Nat.digitChar d).toNat = 48 + d := by
  interval_cases d <;> decide

theorem natChars_ne_nil (n : Nat) : natChars n ≠ [] := by
  unfold natChars
  split <;> simp

theorem natChars_all_digit (n : Nat) : ∀ c ∈ natChars n, c.isDigit = true := by
  induction n using Nat.strong_induction_on with
  | _ n ih =>
    intro c hc
    unfold natChars at hc
    split at hc
    · simp only [List.mem_singleton] at hc
      subst hc
      exact digitChar_isDigit (by omega)
    · rename_i h
      rcases List.mem_append.mp hc with h1 | h2
      · exact ih (n / 10) (Nat.div_lt_self (by omega) (by omega)) c h1
      · simp only [List.mem_singleton] at h2
        subst h2
        exact digitChar_isDigit (Nat.mod_lt _ (by omega))

theorem isDigit_ne_semicolon {c : Char} (h : c.isDigit = true) : c ≠ ';' := by
  intro he; subst he; simp [Char.isDigit] at h

theorem isDigit_ne_comma {c : Char} (h : c.isDigit = true) : c ≠ ',' := by
  intro he; subst he; simp [Char.isDigit] at h

theorem isDigit_ne_dash {c : Char} (h : c.isDigit = true) : c ≠ '-' := by
  intro he; subst he; simp [Char.isDigit] at h

theorem isNumericStr_natChars (n : Nat) : isNumericStr (natChars n) = true := by
  have h1 := natChars_ne_nil n
  have h2 := natChars_all_digit n
  rcases hn : natChars n with _ | ⟨c, cs⟩
  · exact absurd hn h1
  · simp only [isNumericStr, List.isEmpty_cons, Bool.not_false, Bool.true_and]
    exact List.all_eq_true.mpr (hn ▸ h2)

theorem strToNat_append_singleton (xs : Str) (c : Char) :
    strToNat (xs ++ [c]) = strToNat xs * 10 + (c.toNat - 48) := by
  simp [strToNat, List.foldl_append]

theorem strToNat_natChars (n : Nat) : strToNat (natChars n) = n := by
  induction n using Nat.strong_induction_on with
  | _ n ih =>
    unfold natChars
    split
    · rename_i h
      simp [strToNat, digitChar_toNat h]
    · rename_i h
      rw [strToNat_append_singleton, ih (n / 10) (Nat.div_lt_self (by omega) (by omega)),
        digitChar_toNat (Nat.mod_lt _ (by omega))]
      omega

/-! ## Lemmas about `splitOnChar` and `joinSep` -/

theorem splitOnChar_not_mem {sep : Char} {p : Str} (h : sep ∉ p) :
    splitOnChar sep p = [p] := by
  induction p with
  | nil => rfl
  | cons c cs ih =>
    have hc : c ≠ sep := fun he => h (he ▸ List.mem_cons_self c cs)
    have hcs : sep ∉ cs := fun hm => h (List.mem_cons_of_mem c hm)
    simp [splitOnChar, hc, ih hcs]

theorem splitOnChar_append_sep {sep : Char} {p : Str} (t : Str) (h : sep ∉ p) :
    splitOnChar sep (p ++ sep :: t) = p :: splitOnChar sep t := by
  induction p with
  | nil => simp [splitOnChar]
  | cons c cs ih =>
    have hc : c ≠ sep := fun he => h (he ▸ List.mem_cons_self c cs)
    have hcs : sep ∉ cs := fun hm => h (List.mem_cons_of_mem c hm)
    simp [splitOnChar, hc, ih hcs]

theorem splitOnChar_joinSep {sep : Char} :
    ∀ {ps : List Str}, ps ≠ [] → (∀ p ∈ ps, sep ∉ p) →
      splitOnChar sep (joinSep sep ps) = ps := by
  intro ps
  induction ps with
  | nil => intro h; exact absurd rfl h
  | cons p qs ih =>
    intro _ hall
    cases qs with
    | nil => exact splitOnChar_not_mem (hall p (List.mem_cons_self _ _))
    | cons q rs =>
      have : joinSep sep (p :: q :: rs) = p ++ sep :: joinSep sep (q :: rs) := rfl
      rw [this, splitOnChar_append_sep _ (hall p (List.mem_cons_self _ _)),
        ih (by simp) (fun r hr => hall r (List.mem_cons_of_mem p hr))]

/-! ## Lemmas about signed-integer text and offset round-trips -/

theorem intChars_ne_nil (n : Int) : intChars n ≠ [] := by
  unfold intChars
  split
  · simp
  · exact natChars_ne_nil _

theorem intChars_mem {n : Int} {c : Char} (h : c ∈ intChars n) :
    c.isDigit = true ∨ c = '-' := by
  unfold intChars at h
  split at h
  · rcases List.mem_cons.mp h with h | h
    · exact Or.inr h
    · exact Or.inl (natChars_all_digit _ c h)
  · exact Or.inl (natChars_all_digit _ c h)

theorem intChars_not_comma {n : Int} : ',' ∉ intChars n := by
  intro h
  rcases intChars_mem h with h | h
  · exact isDigit_ne_comma h rfl
  · simp at h

theorem intChars_not_semicolon {n : Int} : ';' ∉ intChars n := by
  intro h
  rcases intChars_mem h with h | h
  · exact isDigit_ne_semicolon h rfl
  · simp at h

theorem parseSignedInt_intChars (n : Int) : parseSignedInt (intChars n) = some n := by
  by_cases hn : n < 0
  · have hm : intChars n = '-' :: natChars (-n).toNat := by simp [intChars, hn]
    rw [hm]
    have : parseSignedInt ('-' :: natChars (-n).toNat) =
        if isNumericStr (natChars (-n).toNat) then
          some (-(strToNat (natChars (-n).toNat) : Int)) else none := rfl
    rw [this, if_pos (isNumericStr_natChars _), strToNat_natChars]
    have : (((-n).toNat : Int)) = -n := Int.toNat_of_nonneg (by omega)
    rw [this]
    simp
  · have hm : intChars n = natChars n.toNat := by simp [intChars, hn]
    rcases hc : natChars n.toNat with _ | ⟨c, cs⟩
    · exact absurd hc (natChars_ne_nil _)
    · have hdig : c.isDigit = true := natChars_all_digit _ c (hc ▸ List.mem_cons_self _ _)
      have hne : c ≠ '-' := isDigit_ne_dash hdig
      rw [hm, hc]
      have harm : parseSignedInt (c :: cs) =
          if isNumericStr (c :: cs) then some ((strToNat (c :: cs) : Nat) : Int)
          else none := by
        unfold parseSignedInt
        split
        · rename_i heq
          exact absurd (List.head_eq_of_cons_eq heq.symm) (Ne.symm hne)
        · rfl
      rw [harm, ← hc, if_pos (isNumericStr_natChars _), strToNat_natChars]
      congr 1
      omega

theorem mapOpt_map_id {α β : Type} {f : β → Option α} {g : α → β} :
    ∀ {l : List α}, (∀ a ∈ l, f (g a) = some a) → mapOpt f (l.map g) = some l := by
  intro l
  induction l with
  | nil => intro _; rfl
  | cons a as ih =>
    intro h
    have h1 := h a (List.mem_cons_self _ _)
    have h2 := ih (fun x hx => h x (List.mem_cons_of_mem _ hx))
    simp [mapOpt, h1, h2]

theorem mapOpt_mem {α β : Type} {f : α → Option β} :
    ∀ {l : List α} {l' : List β} {a : α} {b : β},
      mapOpt f l = some l' → a ∈ l → f a = some b → b ∈ l' := by
  intro l
  induction l with
  | nil => intro l' a b _ h; simp at h
  | cons x xs ih =>
    intro l' a b hmap hmem hfa
    unfold mapOpt at hmap
    rcases hx : f x with _ | bx <;> rw [hx] at hmap
    · exact absurd hmap (by simp)
    · rcases hxs : mapOpt f xs with _ | bs <;> rw [hxs] at hmap
      · exact absurd hmap (by simp)
      · have hl' : l' = bx :: bs := by simpa using hmap.symm
        subst hl'
        rcases List.mem_cons.mp hmem with h | h
        · subst h
          have : bx = b := by rw [hx] at hfa; simpa using hfa
          simp [this]
        · exact List.mem_cons_of_mem _ (ih hxs h hfa)

/-- One encoded offset pair `x,y` splits back into its two coordinate
strings and parses back to the pair. -/
theorem parse_offsetPart (p : Int × Int) :
    (match splitOnChar ',' (intChars p.1 ++ ',' :: intChars p.2) with
      | [a, b] => do
        let x ← parseSignedInt a
        let y ← parseSignedInt b
        pure (x, y)
      | _ => (none : Option (Int × Int))) = some p := by
  rw [splitOnChar_append_sep _ intChars_not_comma,
    splitOnChar_not_mem intChars_not_comma]
  simp [parseSignedInt_intChars]

theorem encodeOffsets_ne_nil {l : List (Int × Int)} (h : l ≠ []) :
    encodeOffsets l ≠ [] := by
  rcases l with _ | ⟨p, rest⟩
  · exact absurd rfl h
  · rcases rest with _ | ⟨q, rest⟩
    · have : encodeOffsets [p] = intChars p.1 ++ ',' :: intChars p.2 := rfl
      rw [this]
      rcases hc : intChars p.1 with _ | _
      · exact absurd hc (intChars_ne_nil _)
      · simp
    · have : encodeOffsets (p :: q :: rest) =
          (intChars p.1 ++ ',' :: intChars p.2) ++
            ';' :: joinSep ';' ((q :: rest).map
              (fun p => intChars p.1 ++ ',' :: intChars p.2)) := rfl
      rw [this]
      rcases hc : intChars p.1 with _ | _
      · exact absurd hc (intChars_ne_nil _)
      · simp

theorem parseOffsets_encodeOffsets (l : List (Int × Int)) :
    parseOffsets (encodeOffsets l) = some l := by
  rcases hl : l with _ | ⟨p, rest⟩
  · rfl
  · rw [← hl]
    have hne : l ≠ [] := by rw [hl]; simp
    unfold parseOffsets
    rw [if_neg (encodeOffsets_ne_nil hne)]
    unfold encodeOffsets
    rw [splitOnChar_joinSep (by simp [hl])
      (by
        intro part hpart
        obtain ⟨q, _, rfl⟩ := List.mem_map.mp hpart
        intro hmem
        rcases List.mem_append.mp hmem with h | h
        · exact intChars_not_semicolon h
        · rcases List.mem_cons.mp h with h | h
          · simp at h
          · exact intChars_not_semicolon h)]
    exact mapOpt_map_id (fun q _ => parse_offsetPart q)

/-! ## Lemmas about encoded destination lists and the MSG/STAMP handlers -/

theorem splitOnChar_encodeDests {ds : List Nat} (h : ds ≠ []) :
    splitOnChar ',' (encodeDests ds) = ds.map natChars := by
  unfold encodeDests
  exact splitOnChar_joinSep (by simp [h])
    (by
      intro p hp
      obtain ⟨d, _, rfl⟩ := List.mem_map.mp hp
      intro hc
      exact isDigit_ne_comma (natChars_all_digit d _ hc) rfl)

theorem encodeDests_all_numeric (ds : List Nat) :
    (ds.map natChars).all isNumericStr = true := by
  rw [List.all_eq_true]
  intro p hp
  obtain ⟨d, _, rfl⟩ := List.mem_map.mp hp
  exact isNumericStr_natChars d

theorem map_strToNat_natChars (ds : List Nat) :
    (ds.map natChars).map strToNat = ds := by
  rw [List.map_map]
  have : ∀ d ∈ ds, (strToNat ∘ natChars) d = id d := by
    intro d _
    simp [strToNat_natChars]
  rw [List.map_congr_left this, List.map_id]

theorem encodeDests_ne_broadcast {ds : List Nat} (h : ds ≠ []) :
    encodeDests ds ≠ ['A'] := by
  intro he
  have hs := splitOnChar_encodeDests h
  rw [he] at hs
  have hA : splitOnChar ',' ['A'] = [['A']] := rfl
  rw [hA] at hs
  rcases ds with _ | ⟨d, rest⟩
  · exact h rfl
  · rcases rest with _ | _
    · have hd : natChars d = ['A'] := by simpa using hs.symm
      have := natChars_all_digit d 'A' (hd ▸ List.mem_cons_self _ _)
      simp [Char.isDigit] at this
    · simp at hs

/-- Evaluation of the targeted-MSG path on a canonically encoded destination
list: the per-token `isnumeric` asserts pass and the tokens decode back to
the intended ids, so processing continues with the self-send assert,
redirect resolution, registration asserts, and delivery, in the order of
the code. -/
theorem handleMsg_encodeDests (cid : Nat) (reg : Registry) (rt : RTable)
    {ds : List Nat} (payload : Str) (h : ds ≠ []) :
    handleMsg cid reg rt (encodeDests ds) payload =
      if cid ∈ ds then .fatal .selfSend
      else
        match mapOpt (follow_redirects rt) ds with
        | none => .hang
        | some rdests =>
          if ¬ rdests.all (isRegistered reg) then .fatal .invalidDest
          else .delivered (deliverFold reg rdests (msgFrame payload)) := by
  unfold handleMsg
  rw [if_neg (by simpa using encodeDests_ne_broadcast h)]
  rw [splitOnChar_encodeDests h]
  simp only [encodeDests_all_numeric ds, not_true, if_false, Bool.not_true,
    map_strToNat_natChars ds]

theorem isRegistered_nil_false (d : Nat) : isRegistered [] d = false := rfl

/-- Evaluation of the STAMP handler on canonically encoded offset and
destination fields that resolve to registered receivers: everything up to
the `gimp_validate` assert passes, so the outcome is decided by whether the
icon is configured. -/
theorem handleStamp_encode {icons : List Str} {reg : Registry} {rt : RTable}
    {icon : Str} {l : List (Int × Int)} {ds rdests : List Nat} (hne : ds ≠ [])
    (hres : mapOpt (follow_redirects rt) ds = some rdests)
    (hreg : rdests.all (isRegistered reg) = true) :
    handleStamp true icons reg rt icon (encodeOffsets l) (encodeDests ds) =
      if icons.contains icon then .enqueued ⟨icon, l, rdests⟩
      else .fatal .failedValidation := by
  unfold handleStamp
  rw [if_neg (by simp)]
  rw [parseOffsets_encodeOffsets]
  simp only
  rw [splitOnChar_encodeDests hne]
  simp only [encodeDests_all_numeric ds, map_strToNat_natChars ds, hres]
  simp only [hreg, Bool.not_true, if_false]
  simp [gimp_validate]

/-! ## Lemmas about `enqueue`, delivery folds and broadcast -/

theorem alookup_cons {α : Type} (p : Nat × α) (ps : List (Nat × α)) (x : Nat) :
    alookup (p :: ps) x = if p.1 = x then some p.2 else alookup ps x := rfl

theorem alookup_enqueue_ne {reg : Registry} {d r : Nat} {f : Str} (h : d ≠ r) :
    alookup (enqueue reg d f) r = alookup reg r := by
  induction reg with
  | nil => rfl
  | cons p ps ih =>
    obtain ⟨k, v⟩ := p
    simp only [enqueue, List.map_cons] at ih ⊢
    by_cases hk : k = d
    · subst hk
      have hkr : ¬ k = r := h
      simp only [alookup_cons]
      simp [hkr, ih]
    · by_cases hr : k = r
      · subst hr
        simp only [alookup_cons]
        simp [hk]
      · simp only [alookup_cons]
        simp [hk, hr, ih]

theorem alookup_enqueue_self {reg : Registry} {d : Nat} {f : Str} :
    alookup (enqueue reg d f) d = (alookup reg d).map (fun q => q ++ [f]) := by
  induction reg with
  | nil => rfl
  | cons p ps ih =>
    obtain ⟨k, v⟩ := p
    simp only [enqueue, List.map_cons] at ih ⊢
    by_cases hk : k = d
    · subst hk
      simp only [alookup_cons]
      simp
    · simp only [alookup_cons]
      simp [hk, ih]

theorem isRegistered_enqueue (reg : Registry) (d r : Nat) (f : Str) :
    isRegistered (enqueue reg d f) r = isRegistered reg r := by
  by_cases h : d = r
  · subst h
    unfold isRegistered
    rw [alookup_enqueue_self]
    rcases alookup reg d <;> simp
  · unfold isRegistered
    rw [alookup_enqueue_ne h]

theorem alookup_deliverFold_count {f : Str} {r : Nat} :
    ∀ (rdests : List Nat) (reg : Registry) (q : List Str),
      alookup reg r = some q →
      ∃ q', alookup (deliverFold reg rdests f) r = some q' ∧
        q'.count f = q.count f + rdests.count r := by
  intro rdests
  induction rdests with
  | nil => intro reg q hq; exact ⟨q, hq, by simp [deliverFold]⟩
  | cons d ds ih =>
    intro reg q hq
    have hfold : deliverFold reg (d :: ds) f = deliverFold (enqueue reg d f) ds f := rfl
    by_cases hd : d = r
    · subst hd
      have hq' : alookup (enqueue reg d f) d = some (q ++ [f]) := by
        rw [alookup_enqueue_self, hq]; rfl
      obtain ⟨q', h1, h2⟩ := ih (enqueue reg d f) (q ++ [f]) hq'
      refine ⟨q', by rw [hfold]; exact h1, ?_⟩
      rw [h2, List.count_append, List.count_singleton, List.count_cons]
      simp
      omega
    · have hq' : alookup (enqueue reg d f) r = some q := by
        rw [alookup_enqueue_ne hd, hq]
      obtain ⟨q', h1, h2⟩ := ih (enqueue reg d f) q hq'
      refine ⟨q', by rw [hfold]; exact h1, ?_⟩
      rw [h2, List.count_cons]
      simp [hd]

theorem alookup_broadcastExceptSelf (reg : Registry) (cid id : Nat) (payload : Str) :
    alookup (broadcastExceptSelf reg cid payload) id =
      (alookup reg id).map
        (fun q => if id = cid then q else q ++ [msgFrame payload]) := by
  induction reg with
  | nil => rfl
  | cons p ps ih =>
    obtain ⟨k, v⟩ := p
    simp only [broadcastExceptSelf, List.map_cons] at ih ⊢
    by_cases hid : k = id
    · subst hid
      by_cases hc : k = cid
      · subst hc
        simp only [alookup_cons]
        simp
      · simp only [alookup_cons]
        simp [hc]
    · by_cases hc : k = cid
      · subst hc
        simp only [alookup_cons]
        simp [hid, ih]
      · simp only [alookup_cons]
        simp [hid, hc, ih]

/-! ## Lemmas about the compositing worker -/

theorem deliverSeq_crashed {f : Str} :
    ∀ {ds : List Nat} {reg : Registry},
      (∃ d ∈ ds, isRegistered reg d = false) → (deliverSeq f reg ds).2 = true := by
  intro ds
  induction ds with
  | nil => intro reg ⟨d, hd, _⟩; simp at hd
  | cons d ds ih =>
    intro reg ⟨e, he, hreg⟩
    by_cases hd : isRegistered reg d
    · have hne : e ≠ d := fun h => by rw [h, hd] at hreg; simp at hreg
      have he' : e ∈ ds := by
        rcases List.mem_cons.mp he with h | h
        · exact absurd h hne
        · exact h
      have : (deliverSeq f reg (d :: ds)) = deliverSeq f (enqueue reg d f) ds := by
        simp [deliverSeq, hd]
      rw [this]
      exact ih ⟨e, he', by rw [isRegistered_enqueue]; exact hreg⟩
    · simp [deliverSeq, hd]

theorem runWorker_skip {icons : List Str} {s : WorkerState} {j : StampJob}
    (rest : List (Option StampJob)) (hv : gimp_validate icons (some j) = false) :
    runWorker icons s (some j :: rest) = runWorker icons s rest := by
  simp [runWorker, hv]

theorem runWorker_crash_head {icons : List Str} {s : WorkerState} {j : StampJob}
    (rest : List (Option StampJob)) (hv : gimp_validate icons (some j) = true)
    (hd : ∃ d ∈ j.receivers, isRegistered s.reg d = false) :
    runWorker icons s (some j :: rest) = runWorker icons s [some j] ∧
      (runWorker icons s [some j]).crashed = true := by
  have hcrash : (deliverSeq (stampFrame (s.outputs + 1)) s.reg j.receivers).2 = true :=
    deliverSeq_crashed hd
  constructor
  · simp [runWorker, hv, hcrash]
  · simp [runWorker, hv, hcrash]

/-! ## Lemmas about id assignment -/

theorem runAssign_snd : ∀ (evs : List HubEvent) (n : Nat),
    (runAssign n evs).2 = List.range' n (countJoins evs) := by
  intro evs
  induction evs with
  | nil => intro n; rfl
  | cons e evs ih =>
    intro n
    cases e with
    | join => simp [runAssign, countJoins, ih, List.range'_succ]
    | leave id => simp [runAssign, countJoins, ih]

/-- Shared delivery argument for targeted MSG frames: on a canonically
encoded, fully valid destination list that resolves through the redirect
table to registered ids, the handler delivers, and the queue of any resolved
destination `r` gains at least one copy of `MSG|payload`. -/
theorem targeted_msg_count (cid : Nat) (reg : Registry) (rt : RTable)
    {dests rdests : List Nat} (payload : Str) {d r : Nat} {q : List Str}
    (hne : dests ≠ []) (hself : cid ∉ dests)
    (hres : mapOpt (follow_redirects rt) dests = some rdests)
    (hreg : rdests.all (isRegistered reg) = true)
    (hd : d ∈ dests) (hfr : follow_redirects rt d = some r)
    (hq : alookup reg r = some q) :
    ∃ reg' q', handleMsg cid reg rt (encodeDests dests) payload = .delivered reg' ∧
      alookup reg' r = some q' ∧
      q'.count (msgFrame payload) ≥ q.count (msgFrame payload) + 1 := by
  have hmem : r ∈ rdests := mapOpt_mem hres hd hfr
  obtain ⟨q', h1, h2⟩ := alookup_deliverFold_count rdests reg q hq
  refine ⟨deliverFold reg rdests (msgFrame payload), q', ?_, h1, ?_⟩
  · rw [handleMsg_encodeDests cid reg rt payload hne, if_neg hself, hres]
    simp [hreg]
  · have hpos : 0 < rdests.count r := List.count_pos_iff.mpr hmem
    omega

/-! ## Claim theorems -/

/-- C3: a targeted MSG whose destination list contains the id `d` of a
departed client with a recorded successor has the payload frame
`MSG|payload` enqueued onto the outbound channel of the transitively
resolved successor `r` — not dropped and not treated as an invalid
destination — provided every id in the (otherwise valid) list resolves to a
currently registered client. -/
theorem C3_redirect_msg_delivered (cid : Nat) (reg : Registry) (rt : RTable)
    {dests rdests : List Nat} (payload : Str) {d r : Nat} {q : List Str}
    (hne : dests ≠ []) (hself : cid ∉ dests)
    (hres : mapOpt (follow_redirects rt) dests = some rdests)
    (hreg : rdests.all (isRegistered reg) = true)
    (hd : d ∈ dests) (hdeparted : isRegistered reg d = false)
    (hsucc : (alookup rt d).isSome = true)
    (hfr : follow_redirects rt d = some r)
    (hq : alookup reg r = some q) :
    ∃ reg' q', handleMsg cid reg rt (encodeDests dests) payload = .delivered reg' ∧
      alookup reg' r = some q' ∧
      q'.count (msgFrame payload) ≥ q.count (msgFrame payload) + 1 :=
  targeted_msg_count cid reg rt payload hne hself hres hreg hd hfr hq

/-- Witness for C3: client 0 sends a targeted MSG to departed client 1 whose
redirect entry names client 2; client 2 is registered and receives the
payload frame. -/
theorem C3_redirect_msg_delivered_witness :
    ([1] : List Nat) ≠ [] ∧ (0 : Nat) ∉ ([1] : List Nat) ∧
      mapOpt (follow_redirects [(1, 2)]) [1] = some [2] ∧
      ([2] : List Nat).all (isRegistered [(0, []), (2, [])]) = true ∧
      (1 : Nat) ∈ ([1] : List Nat) ∧
      isRegistered [(0, []), (2, [])] 1 = false ∧
      (alookup [(1, 2)] 1).isSome = true ∧
      follow_redirects [(1, 2)] 1 = some 2 ∧
      alookup ([(0, []), (2, [])] : Registry) 2 = some [] ∧
      (∃ reg' q',
        handleMsg 0 [(0, []), (2, [])] [(1, 2)] (encodeDests [1]) ['p'] =
          .delivered reg' ∧
        alookup reg' 2 = some q' ∧
        q'.count (msgFrame ['p']) ≥ ([] : List Str).count (msgFrame ['p']) + 1) :=
  ⟨by decide, by decide, by decide, by decide, by decide, by decide, by decide,
    by decide, by decide,
    @C3_redirect_msg_delivered 0 [(0, []), (2, [])] [(1, 2)] [1] [2] ['p'] 1 2 []
      (by decide) (by decide) (by decide) (by decide) (by decide) (by decide)
      (by decide) (by decide) (by decide)⟩

/-- C4: a targeted MSG whose literal destination list contains the id of the
sending client itself fails the session (the self-send `assert` fires) and
the outcome is never a delivery. -/
theorem C4_self_msg_fatal (cid : Nat) (reg : Registry) (rt : RTable)
    {dests : List Nat} (payload : Str) (hself : cid ∈ dests) :
    handleMsg cid reg rt (encodeDests dests) payload = .fatal .selfSend ∧
      ∀ reg', handleMsg cid reg rt (encodeDests dests) payload ≠ .delivered reg' := by
  have hne : dests ≠ [] := by
    rintro rfl
    simp at hself
  rw [handleMsg_encodeDests cid reg rt payload hne, if_pos hself]
  exact ⟨rfl, fun reg' h => MsgOutcome.noConfusion h⟩

/-- Witness for C4: client 1 lists itself among the destinations. -/
theorem C4_self_msg_fatal_witness :
    (1 : Nat) ∈ ([0, 1] : List Nat) ∧
      (handleMsg 1 [(0, []), (1, [])] [] (encodeDests [0, 1]) ['x'] =
          .fatal .selfSend ∧
        ∀ reg', handleMsg 1 [(0, []), (1, [])] [] (encodeDests [0, 1]) ['x'] ≠
          .delivered reg') :=
  ⟨by decide, C4_self_msg_fatal 1 [(0, []), (1, [])] [] ['x'] (by decide)⟩

/-- C5: the self-send check inspects only pre-resolution literal ids: when
every literal destination differs from the sender id `cid` but some literal
id `d` resolves through the redirect table to `cid`, validation succeeds and
the sender itself receives `MSG|payload` (given the rest of the list is
valid and the sender is registered). -/
theorem C5_self_check_pre_resolution (cid : Nat) (reg : Registry) (rt : RTable)
    {dests rdests : List Nat} (payload : Str) {d : Nat} {q : List Str}
    (hne : dests ≠ []) (hself : cid ∉ dests)
    (hres : mapOpt (follow_redirects rt) dests = some rdests)
    (hreg : rdests.all (isRegistered reg) = true)
    (hd : d ∈ dests) (hdne : d ≠ cid)
    (hfr : follow_redirects rt d = some cid)
    (hq : alookup reg cid = some q) :
    ∃ reg' q', handleMsg cid reg rt (encodeDests dests) payload = .delivered reg' ∧
      alookup reg' cid = some q' ∧
      q'.count (msgFrame payload) ≥ q.count (msgFrame payload) + 1 :=
  targeted_msg_count cid reg rt payload hne hself hres hreg hd hfr hq

/-- Witness for C5: departed client 1 redirected to client 0; client 0 sends
a targeted MSG to literal destination 1, passes validation, and is delivered
its own payload frame. -/
theorem C5_self_check_pre_resolution_witness :
    ([1] : List Nat) ≠ [] ∧ (0 : Nat) ∉ ([1] : List Nat) ∧
      mapOpt (follow_redirects [(1, 0)]) [1] = some [0] ∧
      ([0] : List Nat).all (isRegistered [(0, [])]) = true ∧
      (1 : Nat) ∈ ([1] : List Nat) ∧ (1 : Nat) ≠ 0 ∧
      follow_redirects [(1, 0)] 1 = some 0 ∧
      alookup ([(0, [])] : Registry) 0 = some [] ∧
      (∃ reg' q',
        handleMsg 0 [(0, [])] [(1, 0)] (encodeDests [1]) ['x'] = .delivered reg' ∧
        alookup reg' 0 = some q' ∧
        q'.count (msgFrame ['x']) ≥ ([] : List Str).count (msgFrame ['x']) + 1) :=
  ⟨by decide, by decide, by decide, by decide, by decide, by decide, by decide,
    by decide,
    @C5_self_check_pre_resolution 0 [(0, [])] [(1, 0)] [1] [0] ['x'] 1 []
      (by decide) (by decide) (by decide) (by decide) (by decide) (by decide)
      (by decide) (by decide)⟩


/-- C6: redirect resolution is idempotent: whenever `follow_redirects`
terminates on `x` with result `r`, resolving `r` again returns `r` itself
(the result of a terminating resolution is never a key of the table, so the
loop exits immediately). -/
theorem C6_follow_redirects_idempotent {t : RTable} {x r : Nat}
    (h : follow_redirects t x = some r) : follow_redirects t r = some r :=
  followFuel_of_lookup_none (followFuel_lookup_none h) t.length

/-- Witness for C6 on the one-entry table `{1: 2}`. -/
theorem C6_follow_redirects_idempotent_witness :
    follow_redirects [(1, 2)] 1 = some 2 ∧ follow_redirects [(1, 2)] 2 = some 2 :=
  ⟨by decide, @C6_follow_redirects_idempotent [(1, 2)] 1 2 (by decide)⟩

/-- The concrete table `{1: 2}` has no cycle. -/
theorem noCycle_pair : ¬ HasCycle [(1, 2)] := by
  rintro ⟨x, n, hn, hkeys, hret⟩
  have h0 := hkeys 0 hn
  rw [Function.iterate_zero_apply] at h0
  have hx : x = 1 := by
    by_contra hne
    have hl : alookup [(1, 2)] x = none := by
      simp [alookup, Ne.symm hne]
    rw [hl] at h0
    simp at h0
  subst hx
  have hg : gstep [(1, 2)] 1 = 2 := by decide
  rcases n with _ | n
  · omega
  · rcases n with _ | n
    · rw [Function.iterate_one, hg] at hret
      omega
    · have h1 := hkeys 1 (by omega)
      rw [Function.iterate_one, hg] at h1
      exact absurd h1 (by decide)

/-- C7: on a cycle-free redirect table the `follow_redirects` loop
terminates for every starting id (fuel `t.length` suffices) and its result
is not a key of the table. -/
theorem C7_follow_redirects_terminates {t : RTable} (hnc : ¬ HasCycle t)
    (x : Nat) : ∃ r, follow_redirects t x = some r ∧ alookup t r = none :=
  follow_redirects_total_of_noCycle hnc x

/-- Witness for C7 on the cycle-free table `{1: 2}` starting from id 1. -/
theorem C7_follow_redirects_terminates_witness :
    (¬ HasCycle [(1, 2)]) ∧
      ∃ r, follow_redirects [(1, 2)] 1 = some r ∧ alookup [(1, 2)] r = none :=
  ⟨noCycle_pair, C7_follow_redirects_terminates noCycle_pair 1⟩

/-- C8: over any sequence of joins and leaves in one process lifetime, the
assigned client ids are exactly `0, 1, 2, ...` in order: strictly
increasing, starting at 0, and never repeated (departures never release an
id). -/
theorem C8_assigned_ids_strictly_increasing (evs : List HubEvent) :
    assignedIds evs = List.range (countJoins evs) ∧
      List.Chain' (· < ·) (assignedIds evs) ∧ (assignedIds evs).Nodup := by
  have h : assignedIds evs = List.range' 0 (countJoins evs) := runAssign_snd evs 0
  refine ⟨by rw [h, List.range_eq_range'], ?_, ?_⟩
  · rw [h]
    exact (List.pairwise_lt_range' 0 _).chain'
  · rw [h]
    exact List.nodup_range' 0 _

/-- C9: a broadcast MSG (destination field the literal marker `A`) from a
registered client appends `MSG|payload` exactly once to the queue of every
other registered client, leaves the queue of the sender unchanged, and
delivers to no unregistered id. -/
theorem C9_broadcast_exact (cid : Nat) (reg : Registry) (rt : RTable)
    (payload : Str) (hsender : isRegistered reg cid = true) :
    ∃ reg', handleMsg cid reg rt ['A'] payload = .delivered reg' ∧
      (∀ id q, alookup reg id = some q →
        alookup reg' id = some (if id = cid then q else q ++ [msgFrame payload])) ∧
      (∀ id, alookup reg id = none → alookup reg' id = none) := by
  refine ⟨broadcastExceptSelf reg cid payload, ?_, ?_, ?_⟩
  · simp [handleMsg]
  · intro id q hq
    rw [alookup_broadcastExceptSelf, hq]
    rfl
  · intro id hq
    rw [alookup_broadcastExceptSelf, hq]
    rfl

/-- Witness for C9: registered client 0 broadcasts to a registry holding
clients 0 and 1. -/
theorem C9_broadcast_exact_witness :
    isRegistered [(0, []), (1, [])] 0 = true ∧
      (∃ reg', handleMsg 0 [(0, []), (1, [])] [] ['A'] ['h'] = .delivered reg' ∧
        (∀ id q, alookup ([(0, []), (1, [])] : Registry) id = some q →
          alookup reg' id = some (if id = 0 then q else q ++ [msgFrame ['h']])) ∧
        (∀ id, alookup ([(0, []), (1, [])] : Registry) id = none →
          alookup reg' id = none)) :=
  ⟨by decide, C9_broadcast_exact 0 [(0, []), (1, [])] [] ['h'] (by decide)⟩

/-- C10: STAMP offset parsing round-trips: a STAMP frame whose offsets field
is the canonical encoding of any list `l` of signed pairs (empty for no
offsets) and whose other fields are valid is enqueued as a `StampJob`
carrying exactly the pairs of `l`, with the same values in the same order. -/
theorem C10_stamp_offsets_roundtrip (icons : List Str) (reg : Registry)
    (rt : RTable) {icon : Str} (l : List (Int × Int)) {ds rdests : List Nat}
    (hne : ds ≠ []) (hres : mapOpt (follow_redirects rt) ds = some rdests)
    (hreg : rdests.all (isRegistered reg) = true)
    (hicon : icons.contains icon = true) :
    handleStamp true icons reg rt icon (encodeOffsets l) (encodeDests ds) =
      .enqueued ⟨icon, l, rdests⟩ := by
  rw [handleStamp_encode hne hres hreg, if_pos hicon]

/-- Witness for C10 on the offsets `[(3,-2), (0,5)]` from the spec
example. -/
theorem C10_stamp_offsets_roundtrip_witness :
    ([1] : List Nat) ≠ [] ∧
      mapOpt (follow_redirects []) [1] = some [1] ∧
      ([1] : List Nat).all (isRegistered [(1, [])]) = true ∧
      ([['a']] : List Str).contains ['a'] = true ∧
      handleStamp true [['a']] [(1, [])] [] ['a']
          (encodeOffsets [(3, -2), (0, 5)]) (encodeDests [1]) =
        .enqueued ⟨['a'], [(3, -2), (0, 5)], [1]⟩ :=
  ⟨by decide, by decide, by decide, by decide,
    @C10_stamp_offsets_roundtrip [['a']] [(1, [])] [] ['a'] [(3, -2), (0, 5)]
      [1] [1] (by decide) (by decide) (by decide) (by decide)⟩

/-- Counterexample to C1 as stated: registry holds only client 0; a stamp
job lists receivers `[1, 0]` (receiver 1 departed, not redirected) and a
second job for the still-registered client 0 waits on the queue.  The
delivery attempt for receiver 1 is not a no-op: the `KeyError` from
`client_put_queues[dest]` kills the worker (`crashed = true`), the remaining
receiver 0 of the first job receives nothing, and the second queued job is
never delivered — the queue of client 0 stays empty. -/
theorem C1_counterexample :
    (runWorker [['a']] ⟨[(0, [])], 0, false⟩
        [some ⟨['a'], [], [1, 0]⟩, some ⟨['a'], [], [0]⟩]).crashed = true ∧
      alookup (runWorker [['a']] ⟨[(0, [])], 0, false⟩
        [some ⟨['a'], [], [1, 0]⟩, some ⟨['a'], [], [0]⟩]).reg 0 = some [] := by
  decide

/-- C1 as amended: when a dequeued stamp job with a configured icon lists a
receiver that is no longer registered, the per-receiver dict lookup raises
`KeyError`: the worker thread dies (after its `finally` teardown), receivers
after the missing one in the list receive nothing, and every job still on
the queue is left unprocessed (the run is the same whatever follows the
crashing job). -/
theorem C1_amended_keyerror (icons : List Str) (s : WorkerState) (j : StampJob)
    (rest : List (Option StampJob)) (hv : gimp_validate icons (some j) = true)
    (hd : ∃ d ∈ j.receivers, isRegistered s.reg d = false) :
    runWorker icons s (some j :: rest) = runWorker icons s [some j] ∧
      (runWorker icons s [some j]).crashed = true :=
  runWorker_crash_head rest hv hd

/-- Witness for the amended C1: job for departed receiver 3 followed by a
job for registered receiver 0. -/
theorem C1_amended_keyerror_witness :
    gimp_validate [['a']] (some ⟨['a'], [], [3]⟩) = true ∧
      (∃ d ∈ [3], isRegistered ([(0, [])] : Registry) d = false) ∧
      (runWorker [['a']] ⟨[(0, [])], 0, false⟩
          [some ⟨['a'], [], [3]⟩, some ⟨['a'], [], [0]⟩] =
        runWorker [['a']] ⟨[(0, [])], 0, false⟩ [some ⟨['a'], [], [3]⟩] ∧
        (runWorker [['a']] ⟨[(0, [])], 0, false⟩
          [some ⟨['a'], [], [3]⟩]).crashed = true) :=
  ⟨by decide, ⟨3, by decide, by decide⟩,
    C1_amended_keyerror [['a']] ⟨[(0, [])], 0, false⟩ ⟨['a'], [], [3]⟩
      [some ⟨['a'], [], [0]⟩] (by decide) ⟨3, by decide, by decide⟩⟩

/-- Counterexample to C2 as stated: with configured icon set `{a}`, a STAMP
frame naming icon `b` (valid offsets and destinations) is not dropped
silently: the `assert gimp_validate(request)` in the receiver fires, which
is fatal to the originating session, and the job is never enqueued. -/
theorem C2_counterexample :
    handleStamp true [['a']] [(0, []), (1, [])] [] ['b'] (encodeOffsets [])
      (encodeDests [1]) = .fatal .failedValidation := by
  rw [@handleStamp_encode [['a']] [(0, []), (1, [])] [] ['b'] [] [1] [1]
    (by decide) (by decide) (by decide)]
  decide

/-- C2 as amended: a STAMP request with an unknown icon is fatal to the
originating session at frame-processing time (the job never reaches the
queue, so it never produces output), while the worker itself never fails on
such a job: if an unknown-icon job does sit on the queue, the worker
dequeues it, drops it silently, and processes the rest of the queue as if
it were absent. -/
theorem C2_amended_fatal_at_submission (icons : List Str) (reg : Registry)
    (rt : RTable) (icon : Str) (l : List (Int × Int)) {ds rdests : List Nat}
    (s : WorkerState) (j : StampJob) (rest : List (Option StampJob))
    (hne : ds ≠ []) (hres : mapOpt (follow_redirects rt) ds = some rdests)
    (hreg : rdests.all (isRegistered reg) = true)
    (hicon : icons.contains icon = false)
    (hj : icons.contains j.icon = false) :
    handleStamp true icons reg rt icon (encodeOffsets l) (encodeDests ds) =
        .fatal .failedValidation ∧
      runWorker icons s (some j :: rest) = runWorker icons s rest := by
  constructor
  · rw [handleStamp_encode hne hres hreg, if_neg (by simpa using hicon)]
  · exact runWorker_skip rest (by simpa [gimp_validate] using hj)

/-- Witness for the amended C2: unknown icon `b` against icon set `{a}`;
the queued unknown-icon job is skipped and the following valid job still
runs. -/
theorem C2_amended_fatal_at_submission_witness :
    ([1] : List Nat) ≠ [] ∧
      mapOpt (follow_redirects []) [1] = some [1] ∧
      ([1] : List Nat).all (isRegistered [(1, [])]) = true ∧
      ([['a']] : List Str).contains ['b'] = false ∧
      (handleStamp true [['a']] [(1, [])] [] ['b'] (encodeOffsets [])
          (encodeDests [1]) = .fatal .failedValidation ∧
        runWorker [['a']] ⟨[(1, [])], 0, false⟩
            [some ⟨['b'], [], [1]⟩, some ⟨['a'], [], [1]⟩] =
          runWorker [['a']] ⟨[(1, [])], 0, false⟩ [some ⟨['a'], [], [1]⟩]) :=
  ⟨by decide, by decide, by decide, by decide,
    @C2_amended_fatal_at_submission [['a']] [(1, [])] [] ['b'] [] [1] [1]
      ⟨[(1, [])], 0, false⟩ ⟨['b'], [], [1]⟩ [some ⟨['a'], [], [1]⟩]
      (by decide) (by decide) (by decide) (by decide) (by decide)⟩

end Server
